import Mathlib

/-!
# Verification of the Synacor-challenge virtual machine

A shallow embedding of the Go virtual machine (`main.go` together with the VM
source file) and proofs about its semantics.

Modelling conventions:
* Go's `Number` (`uint16`) values are represented as `Nat`; every place where
  Go arithmetic wraps at 16 bits carries an explicit `% 65536`.
* The Go array `memory [32767]Number` is represented as a total function
  `Nat → Nat` together with the bound `memSize`; an access outside the bound
  models Go's "index out of range" runtime panic and is an `Err.outOfBounds`.
* `log.Fatalf`, `panic` and runtime panics all terminate the Go process; they
  are modelled as `Except.error` results carrying the error kind.
* `os.Exit(0)` (the `halt` instruction and `ret` on an empty stack) is the
  successful termination and is modelled as `Ctl.halted` / `Step.halt`.
* Reading a line from stdin inside `ask` is the only external interaction;
  a VM whose input buffer is empty yields `Step.blocked` instead.
* `fmt.Print` output is accumulated in an extra `output` field.
-/

namespace Synacor

/-- `const modulo = 32768` from the source. -/
def modulo : Nat := 32768

/-- The length of the Go array `memory [32767]Number`.  (Note: the spec claims
32768 addressable words; the declared array length in the source is 32767.) -/
def memSize : Nat := 32767

/-- Pointwise update of a function, modelling an array element assignment. -/
def updateFn (f : Nat → Nat) (a v : Nat) : Nat → Nat :=
  fun x => if x = a then v else f x

/-- The fatal-error kinds.  Each corresponds to a way the Go process dies:
`invalidValue` is `log.Fatalf("Invalid value %d", n)` in `toValue` (the spec's
InvalidOperand for a resolved value ≥ 32776); `invalidRegister` is the runtime
"index out of range" panic on `vm.registers[...]` when a destination word is
not a register reference (the spec's InvalidOperand for destinations);
`unknownOpcode` is `log.Fatalf("Unknown opcode ...")`; `stackUnderflow` is
`panic("Stack underflow")` in `pop`; `outOfBounds` is the runtime
"index out of range" panic on `vm.memory[...]`; `divisionByZero` is the Go
runtime "integer divide by zero" panic in `mod`. -/
inductive Err where
  | invalidValue
  | invalidRegister
  | unknownOpcode
  | stackUnderflow
  | outOfBounds
  | divisionByZero
  deriving DecidableEq

/-- The VM state, mirroring the Go struct `VirtualMachine`.  `memory` stands
for the array `[32767]Number` (bounds are enforced by `memRead`/`memWrite`),
`registers` for `[8]Number` (bounds enforced by `regWrite`; reads in `toValue`
are always in range).  `output` has no Go counterpart: it accumulates the
characters `print` writes to stdout. -/
structure VirtualMachine where
  memory : Nat → Nat
  registers : Nat → Nat
  stack : List Nat
  memoryIndex : Nat
  input : List Nat
  output : List Nat

/-- A bounds-checked read of the memory array: `none` models the Go runtime
panic for an index outside `0..32766`. -/
def memRead (m : Nat → Nat) (a : Nat) : Option Nat :=
  if a < memSize then some (m a) else none

/-- `func (vm *VirtualMachine) toRegisterIndex(n Number) int` — in Go this is
a plain `int` subtraction; range checking only happens at the array access. -/
def toRegisterIndex (n : Nat) : Nat := n - modulo

/-- `func (vm *VirtualMachine) toValue(n Number) Number`: values ≥ 32776 are a
fatal decode error, values ≥ 32768 read register `n - 32768`, smaller values
are literals. -/
def toValue (registers : Nat → Nat) (n : Nat) : Except Err Nat :=
  if 32776 ≤ n then .error .invalidValue
  else if modulo ≤ n then .ok (registers (toRegisterIndex n))
  else .ok n

/-- The register assignment `vm.registers[vm.toRegisterIndex(dw)] = v`.  The
Go index `int(dw) - 32768` is in range `0..7` exactly when
`32768 ≤ dw < 32776`; anything else panics with "index out of range". -/
def regWrite (registers : Nat → Nat) (dw v : Nat) : Except Err (Nat → Nat) :=
  if modulo ≤ dw ∧ dw < modulo + 8 then
    .ok (updateFn registers (toRegisterIndex dw) v)
  else .error .invalidRegister

/-- What an instruction handler did with control: `fall` = the handler did not
touch `memoryIndex` beyond consuming operands (the `Run` loop's trailing
`vm.next()` will advance past the last operand); `jumped target` = the handler
ended in `jump`, which sets `memoryIndex = target - 1` so that the trailing
`vm.next()` lands exactly on `target`; `halted` = `os.Exit(0)`;
`blocked` = `ask` is waiting for a line of external input. -/
inductive Ctl where
  | fall (vm : VirtualMachine)
  | jumped (vm : VirtualMachine) (target : Nat)
  | halted
  | blocked

/-- `func (vm *VirtualMachine) halt()` — `os.Exit(0)`. -/
def halt (_vm : VirtualMachine) : Except Err Ctl := .ok .halted

/-- `func (vm *VirtualMachine) set()`:
`registerIndex := vm.toRegisterIndex(vm.next()); vm.registers[registerIndex] = vm.toValue(vm.next())`. -/
def set (vm : VirtualMachine) : Except Err Ctl :=
  match memRead vm.memory (vm.memoryIndex + 1) with
  | none => .error .outOfBounds
  | some dw =>
    match memRead vm.memory (vm.memoryIndex + 2) with
    | none => .error .outOfBounds
    | some vw =>
      match toValue vm.registers vw with
      | .error e => .error e
      | .ok v =>
        match regWrite vm.registers dw v with
        | .error e => .error e
        | .ok regs => .ok (.fall { vm with memoryIndex := vm.memoryIndex + 2, registers := regs })

/-- `func (vm *VirtualMachine) push()`: `vm.stack = append(vm.stack, vm.toValue(vm.next()))`. -/
def push (vm : VirtualMachine) : Except Err Ctl :=
  match memRead vm.memory (vm.memoryIndex + 1) with
  | none => .error .outOfBounds
  | some vw =>
    match toValue vm.registers vw with
    | .error e => .error e
    | .ok v => .ok (.fall { vm with memoryIndex := vm.memoryIndex + 1, stack := vm.stack ++ [v] })

/-- `func (vm *VirtualMachine) pop()`: the stack is checked (and popped)
before the destination operand is fetched. -/
def pop (vm : VirtualMachine) : Except Err Ctl :=
  match vm.stack.getLast? with
  | none => .error .stackUnderflow
  | some t =>
    match memRead vm.memory (vm.memoryIndex + 1) with
    | none => .error .outOfBounds
    | some dw =>
      match regWrite vm.registers dw t with
      | .error e => .error e
      | .ok regs =>
        .ok (.fall { vm with stack := vm.stack.dropLast, memoryIndex := vm.memoryIndex + 1,
                             registers := regs })

/-- `func (vm *VirtualMachine) eq()`. -/
def eq (vm : VirtualMachine) : Except Err Ctl :=
  match memRead vm.memory (vm.memoryIndex + 1) with
  | none => .error .outOfBounds
  | some dw =>
    match memRead vm.memory (vm.memoryIndex + 2) with
    | none => .error .outOfBounds
    | some aw =>
      match toValue vm.registers aw with
      | .error e => .error e
      | .ok a =>
        match memRead vm.memory (vm.memoryIndex + 3) with
        | none => .error .outOfBounds
        | some bw =>
          match toValue vm.registers bw with
          | .error e => .error e
          | .ok b =>
            match regWrite vm.registers dw (if a = b then 1 else 0) with
            | .error e => .error e
            | .ok regs =>
              .ok (.fall { vm with memoryIndex := vm.memoryIndex + 3, registers := regs })

/-- `func (vm *VirtualMachine) gt()`. -/
def gt (vm : VirtualMachine) : Except Err Ctl :=
  match memRead vm.memory (vm.memoryIndex + 1) with
  | none => .error .outOfBounds
  | some dw =>
    match memRead vm.memory (vm.memoryIndex + 2) with
    | none => .error .outOfBounds
    | some aw =>
      match toValue vm.registers aw with
      | .error e => .error e
      | .ok a =>
        match memRead vm.memory (vm.memoryIndex + 3) with
        | none => .error .outOfBounds
        | some bw =>
          match toValue vm.registers bw with
          | .error e => .error e
          | .ok b =>
            match regWrite vm.registers dw (if b < a then 1 else 0) with
            | .error e => .error e
            | .ok regs =>
              .ok (.fall { vm with memoryIndex := vm.memoryIndex + 3, registers := regs })

/-- `func (vm *VirtualMachine) jump()`:
`vm.memoryIndex = int(vm.toValue(vm.next())) - 1`.  The `- 1` is fused with
the `Run` loop's trailing `vm.next()` into `Ctl.jumped`. -/
def jump (vm : VirtualMachine) : Except Err Ctl :=
  match memRead vm.memory (vm.memoryIndex + 1) with
  | none => .error .outOfBounds
  | some aw =>
    match toValue vm.registers aw with
    | .error e => .error e
    | .ok v => .ok (.jumped { vm with memoryIndex := vm.memoryIndex + 1 } v)

/-- `func (vm *VirtualMachine) jt()`: jump when the condition is nonzero,
otherwise skip the address operand with a bare `vm.next()`. -/
def jt (vm : VirtualMachine) : Except Err Ctl :=
  match memRead vm.memory (vm.memoryIndex + 1) with
  | none => .error .outOfBounds
  | some cw =>
    match toValue vm.registers cw with
    | .error e => .error e
    | .ok cv =>
      if cv ≠ 0 then jump { vm with memoryIndex := vm.memoryIndex + 1 }
      else
        match memRead vm.memory (vm.memoryIndex + 2) with
        | none => .error .outOfBounds
        | some _ => .ok (.fall { vm with memoryIndex := vm.memoryIndex + 2 })

/-- `func (vm *VirtualMachine) jf()`: jump when the condition is zero. -/
def jf (vm : VirtualMachine) : Except Err Ctl :=
  match memRead vm.memory (vm.memoryIndex + 1) with
  | none => .error .outOfBounds
  | some cw =>
    match toValue vm.registers cw with
    | .error e => .error e
    | .ok cv =>
      if cv = 0 then jump { vm with memoryIndex := vm.memoryIndex + 1 }
      else
        match memRead vm.memory (vm.memoryIndex + 2) with
        | none => .error .outOfBounds
        | some _ => .ok (.fall { vm with memoryIndex := vm.memoryIndex + 2 })

/-- `func (vm *VirtualMachine) add()`: `(value1 + value2) % modulo`; the Go
`+` is on `uint16`, hence the inner `% 65536`. -/
def add (vm : VirtualMachine) : Except Err Ctl :=
  match memRead vm.memory (vm.memoryIndex + 1) with
  | none => .error .outOfBounds
  | some dw =>
    match memRead vm.memory (vm.memoryIndex + 2) with
    | none => .error .outOfBounds
    | some aw =>
      match toValue vm.registers aw with
      | .error e => .error e
      | .ok a =>
        match memRead vm.memory (vm.memoryIndex + 3) with
        | none => .error .outOfBounds
        | some bw =>
          match toValue vm.registers bw with
          | .error e => .error e
          | .ok b =>
            match regWrite vm.registers dw ((a + b) % 65536 % modulo) with
            | .error e => .error e
            | .ok regs =>
              .ok (.fall { vm with memoryIndex := vm.memoryIndex + 3, registers := regs })

/-- `func (vm *VirtualMachine) mul()`: `(value1 * value2) % modulo` on `uint16`. -/
def mul (vm : VirtualMachine) : Except Err Ctl :=
  match memRead vm.memory (vm.memoryIndex + 1) with
  | none => .error .outOfBounds
  | some dw =>
    match memRead vm.memory (vm.memoryIndex + 2) with
    | none => .error .outOfBounds
    | some aw =>
      match toValue vm.registers aw with
      | .error e => .error e
      | .ok a =>
        match memRead vm.memory (vm.memoryIndex + 3) with
        | none => .error .outOfBounds
        | some bw =>
          match toValue vm.registers bw with
          | .error e => .error e
          | .ok b =>
            match regWrite vm.registers dw (a * b % 65536 % modulo) with
            | .error e => .error e
            | .ok regs =>
              .ok (.fall { vm with memoryIndex := vm.memoryIndex + 3, registers := regs })

/-- `func (vm *VirtualMachine) mod()`: `(value1 % value2) % modulo`; a zero
divisor is the Go runtime "integer divide by zero" panic. -/
def mod (vm : VirtualMachine) : Except Err Ctl :=
  match memRead vm.memory (vm.memoryIndex + 1) with
  | none => .error .outOfBounds
  | some dw =>
    match memRead vm.memory (vm.memoryIndex + 2) with
    | none => .error .outOfBounds
    | some aw =>
      match toValue vm.registers aw with
      | .error e => .error e
      | .ok a =>
        match memRead vm.memory (vm.memoryIndex + 3) with
        | none => .error .outOfBounds
        | some bw =>
          match toValue vm.registers bw with
          | .error e => .error e
          | .ok b =>
            if b = 0 then .error .divisionByZero
            else
              match regWrite vm.registers dw (a % b % modulo) with
              | .error e => .error e
              | .ok regs =>
                .ok (.fall { vm with memoryIndex := vm.memoryIndex + 3, registers := regs })

/-- `func (vm *VirtualMachine) and()`: `(value1 & value2) % modulo`. -/
def and (vm : VirtualMachine) : Except Err Ctl :=
  match memRead vm.memory (vm.memoryIndex + 1) with
  | none => .error .outOfBounds
  | some dw =>
    match memRead vm.memory (vm.memoryIndex + 2) with
    | none => .error .outOfBounds
    | some aw =>
      match toValue vm.registers aw with
      | .error e => .error e
      | .ok a =>
        match memRead vm.memory (vm.memoryIndex + 3) with
        | none => .error .outOfBounds
        | some bw =>
          match toValue vm.registers bw with
          | .error e => .error e
          | .ok b =>
            match regWrite vm.registers dw ((a &&& b) % modulo) with
            | .error e => .error e
            | .ok regs =>
              .ok (.fall { vm with memoryIndex := vm.memoryIndex + 3, registers := regs })

/-- `func (vm *VirtualMachine) or()`: `(value1 | value2) % modulo`. -/
def or (vm : VirtualMachine) : Except Err Ctl :=
  match memRead vm.memory (vm.memoryIndex + 1) with
  | none => .error .outOfBounds
  | some dw =>
    match memRead vm.memory (vm.memoryIndex + 2) with
    | none => .error .outOfBounds
    | some aw =>
      match toValue vm.registers aw with
      | .error e => .error e
      | .ok a =>
        match memRead vm.memory (vm.memoryIndex + 3) with
        | none => .error .outOfBounds
        | some bw =>
          match toValue vm.registers bw with
          | .error e => .error e
          | .ok b =>
            match regWrite vm.registers dw ((a ||| b) % modulo) with
            | .error e => .error e
            | .ok regs =>
              .ok (.fall { vm with memoryIndex := vm.memoryIndex + 3, registers := regs })

/-- `func (vm *VirtualMachine) not()`: `(^value) % modulo`.  On `uint16` the
bitwise complement `^v` equals `65535 - v`. -/
def not (vm : VirtualMachine) : Except Err Ctl :=
  match memRead vm.memory (vm.memoryIndex + 1) with
  | none => .error .outOfBounds
  | some dw =>
    match memRead vm.memory (vm.memoryIndex + 2) with
    | none => .error .outOfBounds
    | some vw =>
      match toValue vm.registers vw with
      | .error e => .error e
      | .ok v =>
        match regWrite vm.registers dw ((65535 - v) % modulo) with
        | .error e => .error e
        | .ok regs => .ok (.fall { vm with memoryIndex := vm.memoryIndex + 2, registers := regs })

/-- `func (vm *VirtualMachine) read()` (rmem):
`vm.registers[registerIndex] = vm.memory[vm.toValue(vm.next())]`. -/
def read (vm : VirtualMachine) : Except Err Ctl :=
  match memRead vm.memory (vm.memoryIndex + 1) with
  | none => .error .outOfBounds
  | some dw =>
    match memRead vm.memory (vm.memoryIndex + 2) with
    | none => .error .outOfBounds
    | some aw =>
      match toValue vm.registers aw with
      | .error e => .error e
      | .ok a =>
        match memRead vm.memory a with
        | none => .error .outOfBounds
        | some v =>
          match regWrite vm.registers dw v with
          | .error e => .error e
          | .ok regs =>
            .ok (.fall { vm with memoryIndex := vm.memoryIndex + 2, registers := regs })

/-- `func (vm *VirtualMachine) write()` (wmem):
`memoryIndex := vm.toValue(vm.next()); vm.memory[memoryIndex] = vm.toValue(vm.next())`. -/
def write (vm : VirtualMachine) : Except Err Ctl :=
  match memRead vm.memory (vm.memoryIndex + 1) with
  | none => .error .outOfBounds
  | some aw =>
    match toValue vm.registers aw with
    | .error e => .error e
    | .ok a =>
      match memRead vm.memory (vm.memoryIndex + 2) with
      | none => .error .outOfBounds
      | some vw =>
        match toValue vm.registers vw with
        | .error e => .error e
        | .ok v =>
          if a < memSize then
            .ok (.fall { vm with memoryIndex := vm.memoryIndex + 2,
                                 memory := updateFn vm.memory a v })
          else .error .outOfBounds

/-- `func (vm *VirtualMachine) call()`:
`vm.stack = append(vm.stack, Number(vm.memoryIndex+2)); vm.jump()` — pushed
before the operand is consumed, with `memoryIndex` still at the opcode;
`Number(...)` is the `uint16` conversion. -/
def call (vm : VirtualMachine) : Except Err Ctl :=
  jump { vm with stack := vm.stack ++ [(vm.memoryIndex + 2) % 65536] }

/-- `func (vm *VirtualMachine) ret()`: an empty stack halts (`vm.halt()`),
otherwise `vm.memoryIndex = int(vm.stack[l-1]) - 1; vm.stack = vm.stack[:l-1]`
(the `- 1` fused into `Ctl.jumped` as in `jump`). -/
def ret (vm : VirtualMachine) : Except Err Ctl :=
  match vm.stack.getLast? with
  | none => .ok .halted
  | some t => .ok (.jumped { vm with stack := vm.stack.dropLast } t)

/-- `func (vm *VirtualMachine) print()` (out): emits the resolved value as a
character; we accumulate it in `output`. -/
def print (vm : VirtualMachine) : Except Err Ctl :=
  match memRead vm.memory (vm.memoryIndex + 1) with
  | none => .error .outOfBounds
  | some vw =>
    match toValue vm.registers vw with
    | .error e => .error e
    | .ok v => .ok (.fall { vm with memoryIndex := vm.memoryIndex + 1, output := vm.output ++ [v] })

/-- `func (vm *VirtualMachine) ask()` (in): with an empty buffer Go blocks on
a line from stdin (modelled as `Ctl.blocked`); otherwise the destination
register receives `Number(vm.input[0])` and the character is consumed. -/
def ask (vm : VirtualMachine) : Except Err Ctl :=
  match vm.input with
  | [] => .ok .blocked
  | ch :: rest =>
    match memRead vm.memory (vm.memoryIndex + 1) with
    | none => .error .outOfBounds
    | some dw =>
      match regWrite vm.registers dw (ch % 65536) with
      | .error e => .error e
      | .ok regs =>
        .ok (.fall { vm with memoryIndex := vm.memoryIndex + 1, registers := regs,
                             input := rest })

/-- `func (vm *VirtualMachine) noop()`. -/
def noop (vm : VirtualMachine) : Except Err Ctl := .ok (.fall vm)

/-- The `switch opcode` dispatch in `Run`. -/
def execute (vm : VirtualMachine) (opcode : Nat) : Except Err Ctl :=
  match opcode with
  | 0 => halt vm
  | 1 => set vm
  | 2 => push vm
  | 3 => pop vm
  | 4 => eq vm
  | 5 => gt vm
  | 6 => jump vm
  | 7 => jt vm
  | 8 => jf vm
  | 9 => add vm
  | 10 => mul vm
  | 11 => mod vm
  | 12 => and vm
  | 13 => or vm
  | 14 => not vm
  | 15 => read vm
  | 16 => write vm
  | 17 => call vm
  | 18 => ret vm
  | 19 => print vm
  | 20 => ask vm
  | 21 => noop vm
  | _ => .error .unknownOpcode

/-- The result of one iteration of the `Run` loop. -/
inductive Step where
  | cont (vm : VirtualMachine)
  | halt
  | fault (e : Err)
  | blocked

/-- One iteration of `func (vm *VirtualMachine) Run()`:
`opcode := vm.toValue(vm.current())`, dispatch, then the trailing `vm.next()`
(which advances `memoryIndex` and performs a bounds-checked read even though
its result is discarded). -/
def step (vm : VirtualMachine) : Step :=
  match memRead vm.memory vm.memoryIndex with
  | none => .fault .outOfBounds
  | some w =>
    match toValue vm.registers w with
    | .error e => .fault e
    | .ok opcode =>
      match execute vm opcode with
      | .error e => .fault e
      | .ok .halted => .halt
      | .ok .blocked => .blocked
      | .ok (.fall u) =>
        match memRead u.memory (u.memoryIndex + 1) with
        | none => .fault .outOfBounds
        | some _ => .cont { u with memoryIndex := u.memoryIndex + 1 }
      | .ok (.jumped u t) =>
        match memRead u.memory t with
        | none => .fault .outOfBounds
        | some _ => .cont { u with memoryIndex := t }

/-- `func readProgram(b []byte) []Number` from `main.go`: consecutive byte
pairs become little-endian 16-bit words.  On odd-length input the final slice
`b[i:i+2]` is out of range, a runtime panic, modelled as `none`. -/
def readProgram : List Nat → Option (List Nat)
  | [] => some []
  | [_] => none
  | b0 :: b1 :: rest => (readProgram rest).map (fun ws => (b0 + 256 * b1) :: ws)

/-- `func NewVirtualMachine(program []Number) *VirtualMachine`: a zeroed
struct, then `copy(result.memory[:], program)` — which copies at most
`memSize` words and silently drops the rest. -/
def NewVirtualMachine (program : List Nat) : VirtualMachine :=
  { memory := fun a => if a < memSize then program.getD a 0 else 0
    registers := fun _ => 0
    stack := []
    memoryIndex := 0
    input := []
    output := [] }

/-- The composition performed by `main`:
`NewVirtualMachine(readProgram(...))`. -/
def loadProgram (b : List Nat) : Option VirtualMachine :=
  (readProgram b).map NewVirtualMachine

/-- The fixed operand count of each opcode (from the instruction table;
the dispatch in `Run` has no central table, each handler consumes its
operands with `vm.next()`). -/
def operandCount : Nat → Nat
  | 1 => 2
  | 2 => 1
  | 3 => 1
  | 4 => 3
  | 5 => 3
  | 6 => 1
  | 7 => 2
  | 8 => 2
  | 9 => 3
  | 10 => 3
  | 11 => 3
  | 12 => 3
  | 13 => 3
  | 14 => 2
  | 15 => 2
  | 16 => 2
  | 17 => 1
  | 19 => 1
  | 20 => 1
  | _ => 0

end Synacor

namespace Synacor

/-! ## Basic lemmas about the auxiliary operations -/

theorem updateFn_same (f : Nat → Nat) (a v : Nat) : updateFn f a v a = v := by
  simp [updateFn]

theorem updateFn_other (f : Nat → Nat) (a v x : Nat) (h : x ≠ a) : updateFn f a v x = f x := by
  simp [updateFn, h]

theorem memRead_lt {m : Nat → Nat} {a x : Nat} (h : memRead m a = some x) : a < memSize := by
  unfold memRead at h
  split at h
  · assumption
  · exact Option.noConfusion h

theorem memRead_of_lt {m : Nat → Nat} {a : Nat} (h : a < memSize) : memRead m a = some (m a) := by
  unfold memRead
  simp [h]

theorem regWrite_ok {registers : Nat → Nat} {dw v : Nat} {regs : Nat → Nat}
    (h : regWrite registers dw v = .ok regs) :
    modulo ≤ dw ∧ dw < modulo + 8 ∧ regs = updateFn registers (toRegisterIndex dw) v := by
  unfold regWrite at h
  split at h
  · cases h
    exact ⟨by omega, by omega, rfl⟩
  · exact Except.noConfusion h

theorem regWrite_of_range {registers : Nat → Nat} {dw : Nat} (v : Nat)
    (h1 : modulo ≤ dw) (h2 : dw < modulo + 8) :
    regWrite registers dw v = .ok (updateFn registers (toRegisterIndex dw) v) := by
  unfold regWrite
  simp [h1, h2]

theorem regWrite_out_of_range {registers : Nat → Nat} {dw : Nat} (v : Nat)
    (h : ¬ (modulo ≤ dw ∧ dw < modulo + 8)) :
    regWrite registers dw v = .error .invalidRegister := by
  unfold regWrite
  simp [h]

/-! ## Inversion lemmas: what each instruction handler did when it succeeded -/

theorem set_ok {vm : VirtualMachine} {c : Ctl} (h : set vm = .ok c) :
    ∃ dw vw v regs,
      memRead vm.memory (vm.memoryIndex + 1) = some dw ∧
      memRead vm.memory (vm.memoryIndex + 2) = some vw ∧
      toValue vm.registers vw = .ok v ∧
      regWrite vm.registers dw v = .ok regs ∧
      c = .fall { vm with memoryIndex := vm.memoryIndex + 2, registers := regs } := by
  unfold set at h
  repeat' split at h
  any_goals exact Except.noConfusion h
  cases h
  exact ⟨_, _, _, _, by assumption, by assumption, by assumption, by assumption, rfl⟩

theorem push_ok {vm : VirtualMachine} {c : Ctl} (h : push vm = .ok c) :
    ∃ vw v,
      memRead vm.memory (vm.memoryIndex + 1) = some vw ∧
      toValue vm.registers vw = .ok v ∧
      c = .fall { vm with memoryIndex := vm.memoryIndex + 1, stack := vm.stack ++ [v] } := by
  unfold push at h
  repeat' split at h
  any_goals exact Except.noConfusion h
  cases h
  exact ⟨_, _, by assumption, by assumption, rfl⟩

theorem pop_ok {vm : VirtualMachine} {c : Ctl} (h : pop vm = .ok c) :
    ∃ t dw regs,
      vm.stack.getLast? = some t ∧
      memRead vm.memory (vm.memoryIndex + 1) = some dw ∧
      regWrite vm.registers dw t = .ok regs ∧
      c = .fall { vm with stack := vm.stack.dropLast, memoryIndex := vm.memoryIndex + 1,
                          registers := regs } := by
  unfold pop at h
  repeat' split at h
  any_goals exact Except.noConfusion h
  cases h
  exact ⟨_, _, _, by assumption, by assumption, by assumption, rfl⟩

theorem eq_ok {vm : VirtualMachine} {c : Ctl} (h : eq vm = .ok c) :
    ∃ dw aw a bw b regs,
      memRead vm.memory (vm.memoryIndex + 1) = some dw ∧
      memRead vm.memory (vm.memoryIndex + 2) = some aw ∧
      toValue vm.registers aw = .ok a ∧
      memRead vm.memory (vm.memoryIndex + 3) = some bw ∧
      toValue vm.registers bw = .ok b ∧
      regWrite vm.registers dw (if a = b then 1 else 0) = .ok regs ∧
      c = .fall { vm with memoryIndex := vm.memoryIndex + 3, registers := regs } := by
  unfold eq at h
  repeat' split at h
  any_goals exact Except.noConfusion h
  cases h
  exact ⟨_, _, _, _, _, _, by assumption, by assumption, by assumption, by assumption,
    by assumption, by assumption, rfl⟩

theorem gt_ok {vm : VirtualMachine} {c : Ctl} (h : gt vm = .ok c) :
    ∃ dw aw a bw b regs,
      memRead vm.memory (vm.memoryIndex + 1) = some dw ∧
      memRead vm.memory (vm.memoryIndex + 2) = some aw ∧
      toValue vm.registers aw = .ok a ∧
      memRead vm.memory (vm.memoryIndex + 3) = some bw ∧
      toValue vm.registers bw = .ok b ∧
      regWrite vm.registers dw (if b < a then 1 else 0) = .ok regs ∧
      c = .fall { vm with memoryIndex := vm.memoryIndex + 3, registers := regs } := by
  unfold gt at h
  repeat' split at h
  any_goals exact Except.noConfusion h
  cases h
  exact ⟨_, _, _, _, _, _, by assumption, by assumption, by assumption, by assumption,
    by assumption, by assumption, rfl⟩

theorem jump_ok {vm : VirtualMachine} {c : Ctl} (h : jump vm = .ok c) :
    ∃ aw v,
      memRead vm.memory (vm.memoryIndex + 1) = some aw ∧
      toValue vm.registers aw = .ok v ∧
      c = .jumped { vm with memoryIndex := vm.memoryIndex + 1 } v := by
  unfold jump at h
  repeat' split at h
  any_goals exact Except.noConfusion h
  cases h
  exact ⟨_, _, by assumption, by assumption, rfl⟩

theorem add_ok {vm : VirtualMachine} {c : Ctl} (h : add vm = .ok c) :
    ∃ dw aw a bw b regs,
      memRead vm.memory (vm.memoryIndex + 1) = some dw ∧
      memRead vm.memory (vm.memoryIndex + 2) = some aw ∧
      toValue vm.registers aw = .ok a ∧
      memRead vm.memory (vm.memoryIndex + 3) = some bw ∧
      toValue vm.registers bw = .ok b ∧
      regWrite vm.registers dw ((a + b) % 65536 % modulo) = .ok regs ∧
      c = .fall { vm with memoryIndex := vm.memoryIndex + 3, registers := regs } := by
  unfold add at h
  repeat' split at h
  any_goals exact Except.noConfusion h
  cases h
  exact ⟨_, _, _, _, _, _, by assumption, by assumption, by assumption, by assumption,
    by assumption, by assumption, rfl⟩

theorem mul_ok {vm : VirtualMachine} {c : Ctl} (h : mul vm = .ok c) :
    ∃ dw aw a bw b regs,
      memRead vm.memory (vm.memoryIndex + 1) = some dw ∧
      memRead vm.memory (vm.memoryIndex + 2) = some aw ∧
      toValue vm.registers aw = .ok a ∧
      memRead vm.memory (vm.memoryIndex + 3) = some bw ∧
      toValue vm.registers bw = .ok b ∧
      regWrite vm.registers dw (a * b % 65536 % modulo) = .ok regs ∧
      c = .fall { vm with memoryIndex := vm.memoryIndex + 3, registers := regs } := by
  unfold mul at h
  repeat' split at h
  any_goals exact Except.noConfusion h
  cases h
  exact ⟨_, _, _, _, _, _, by assumption, by assumption, by assumption, by assumption,
    by assumption, by assumption, rfl⟩

theorem mod_ok {vm : VirtualMachine} {c : Ctl} (h : mod vm = .ok c) :
    ∃ dw aw a bw b regs,
      memRead vm.memory (vm.memoryIndex + 1) = some dw ∧
      memRead vm.memory (vm.memoryIndex + 2) = some aw ∧
      toValue vm.registers aw = .ok a ∧
      memRead vm.memory (vm.memoryIndex + 3) = some bw ∧
      toValue vm.registers bw = .ok b ∧
      b ≠ 0 ∧
      regWrite vm.registers dw (a % b % modulo) = .ok regs ∧
      c = .fall { vm with memoryIndex := vm.memoryIndex + 3, registers := regs } := by
  unfold mod at h
  repeat' split at h
  any_goals exact Except.noConfusion h
  cases h
  exact ⟨_, _, _, _, _, _, by assumption, by assumption, by assumption, by assumption,
    by assumption, by assumption, by assumption, rfl⟩

theorem and_ok {vm : VirtualMachine} {c : Ctl} (h : and vm = .ok c) :
    ∃ dw aw a bw b regs,
      memRead vm.memory (vm.memoryIndex + 1) = some dw ∧
      memRead vm.memory (vm.memoryIndex + 2) = some aw ∧
      toValue vm.registers aw = .ok a ∧
      memRead vm.memory (vm.memoryIndex + 3) = some bw ∧
      toValue vm.registers bw = .ok b ∧
      regWrite vm.registers dw ((a &&& b) % modulo) = .ok regs ∧
      c = .fall { vm with memoryIndex := vm.memoryIndex + 3, registers := regs } := by
  unfold and at h
  repeat' split at h
  any_goals exact Except.noConfusion h
  cases h
  exact ⟨_, _, _, _, _, _, by assumption, by assumption, by assumption, by assumption,
    by assumption, by assumption, rfl⟩

theorem or_ok {vm : VirtualMachine} {c : Ctl} (h : or vm = .ok c) :
    ∃ dw aw a bw b regs,
      memRead vm.memory (vm.memoryIndex + 1) = some dw ∧
      memRead vm.memory (vm.memoryIndex + 2) = some aw ∧
      toValue vm.registers aw = .ok a ∧
      memRead vm.memory (vm.memoryIndex + 3) = some bw ∧
      toValue vm.registers bw = .ok b ∧
      regWrite vm.registers dw ((a ||| b) % modulo) = .ok regs ∧
      c = .fall { vm with memoryIndex := vm.memoryIndex + 3, registers := regs } := by
  unfold or at h
  repeat' split at h
  any_goals exact Except.noConfusion h
  cases h
  exact ⟨_, _, _, _, _, _, by assumption, by assumption, by assumption, by assumption,
    by assumption, by assumption, rfl⟩

theorem not_ok {vm : VirtualMachine} {c : Ctl} (h : not vm = .ok c) :
    ∃ dw vw v regs,
      memRead vm.memory (vm.memoryIndex + 1) = some dw ∧
      memRead vm.memory (vm.memoryIndex + 2) = some vw ∧
      toValue vm.registers vw = .ok v ∧
      regWrite vm.registers dw ((65535 - v) % modulo) = .ok regs ∧
      c = .fall { vm with memoryIndex := vm.memoryIndex + 2, registers := regs } := by
  unfold not at h
  repeat' split at h
  any_goals exact Except.noConfusion h
  cases h
  exact ⟨_, _, _, _, by assumption, by assumption, by assumption, by assumption, rfl⟩

theorem read_ok {vm : VirtualMachine} {c : Ctl} (h : read vm = .ok c) :
    ∃ dw aw a v regs,
      memRead vm.memory (vm.memoryIndex + 1) = some dw ∧
      memRead vm.memory (vm.memoryIndex + 2) = some aw ∧
      toValue vm.registers aw = .ok a ∧
      memRead vm.memory a = some v ∧
      regWrite vm.registers dw v = .ok regs ∧
      c = .fall { vm with memoryIndex := vm.memoryIndex + 2, registers := regs } := by
  unfold read at h
  repeat' split at h
  any_goals exact Except.noConfusion h
  cases h
  exact ⟨_, _, _, _, _, by assumption, by assumption, by assumption, by assumption,
    by assumption, rfl⟩

theorem write_ok {vm : VirtualMachine} {c : Ctl} (h : write vm = .ok c) :
    ∃ aw a vw v,
      memRead vm.memory (vm.memoryIndex + 1) = some aw ∧
      toValue vm.registers aw = .ok a ∧
      memRead vm.memory (vm.memoryIndex + 2) = some vw ∧
      toValue vm.registers vw = .ok v ∧
      a < memSize ∧
      c = .fall { vm with memoryIndex := vm.memoryIndex + 2,
                          memory := updateFn vm.memory a v } := by
  unfold write at h
  repeat' split at h
  any_goals exact Except.noConfusion h
  cases h
  exact ⟨_, _, _, _, by assumption, by assumption, by assumption, by assumption,
    by assumption, rfl⟩

theorem ret_ok {vm : VirtualMachine} {c : Ctl} (h : ret vm = .ok c) :
    (vm.stack.getLast? = none ∧ c = .halted) ∨
    (∃ t, vm.stack.getLast? = some t ∧ c = .jumped { vm with stack := vm.stack.dropLast } t) := by
  unfold ret at h
  split at h
  · cases h
    exact Or.inl ⟨by assumption, rfl⟩
  · cases h
    exact Or.inr ⟨_, by assumption, rfl⟩

theorem print_ok {vm : VirtualMachine} {c : Ctl} (h : print vm = .ok c) :
    ∃ vw v,
      memRead vm.memory (vm.memoryIndex + 1) = some vw ∧
      toValue vm.registers vw = .ok v ∧
      c = .fall { vm with memoryIndex := vm.memoryIndex + 1, output := vm.output ++ [v] } := by
  unfold print at h
  repeat' split at h
  any_goals exact Except.noConfusion h
  cases h
  exact ⟨_, _, by assumption, by assumption, rfl⟩

theorem ask_ok {vm : VirtualMachine} {c : Ctl} (h : ask vm = .ok c) :
    (vm.input = [] ∧ c = .blocked) ∨
    (∃ ch rest dw regs,
      vm.input = ch :: rest ∧
      memRead vm.memory (vm.memoryIndex + 1) = some dw ∧
      regWrite vm.registers dw (ch % 65536) = .ok regs ∧
      c = .fall { vm with memoryIndex := vm.memoryIndex + 1, registers := regs,
                          input := rest }) := by
  unfold ask at h
  repeat' split at h
  any_goals exact Except.noConfusion h
  · cases h
    exact Or.inl ⟨by assumption, rfl⟩
  · cases h
    exact Or.inr ⟨_, _, _, _, by assumption, by assumption, by assumption, rfl⟩

end Synacor

namespace Synacor

theorem jt_ok {vm : VirtualMachine} {c : Ctl} (h : jt vm = .ok c) :
    ∃ cw cv,
      memRead vm.memory (vm.memoryIndex + 1) = some cw ∧
      toValue vm.registers cw = .ok cv ∧
      ((cv ≠ 0 ∧ ∃ aw v,
          memRead vm.memory (vm.memoryIndex + 2) = some aw ∧
          toValue vm.registers aw = .ok v ∧
          c = .jumped { vm with memoryIndex := vm.memoryIndex + 2 } v) ∨
       (cv = 0 ∧ ∃ xw,
          memRead vm.memory (vm.memoryIndex + 2) = some xw ∧
          c = .fall { vm with memoryIndex := vm.memoryIndex + 2 })) := by
  unfold jt at h
  split at h
  · exact Except.noConfusion h
  next cw hcw =>
    split at h
    · exact Except.noConfusion h
    next cv hcv =>
      split at h
      · obtain ⟨aw, v, h1, h2, rfl⟩ := jump_ok h
        exact ⟨cw, cv, hcw, hcv, Or.inl ⟨by assumption, aw, v, h1, h2, rfl⟩⟩
      · split at h
        · exact Except.noConfusion h
        next xw hxw =>
          cases h
          exact ⟨cw, cv, hcw, hcv, Or.inr ⟨by omega, xw, hxw, rfl⟩⟩

theorem jf_ok {vm : VirtualMachine} {c : Ctl} (h : jf vm = .ok c) :
    ∃ cw cv,
      memRead vm.memory (vm.memoryIndex + 1) = some cw ∧
      toValue vm.registers cw = .ok cv ∧
      ((cv = 0 ∧ ∃ aw v,
          memRead vm.memory (vm.memoryIndex + 2) = some aw ∧
          toValue vm.registers aw = .ok v ∧
          c = .jumped { vm with memoryIndex := vm.memoryIndex + 2 } v) ∨
       (cv ≠ 0 ∧ ∃ xw,
          memRead vm.memory (vm.memoryIndex + 2) = some xw ∧
          c = .fall { vm with memoryIndex := vm.memoryIndex + 2 })) := by
  unfold jf at h
  split at h
  · exact Except.noConfusion h
  next cw hcw =>
    split at h
    · exact Except.noConfusion h
    next cv hcv =>
      split at h
      · obtain ⟨aw, v, h1, h2, rfl⟩ := jump_ok h
        exact ⟨cw, cv, hcw, hcv, Or.inl ⟨by assumption, aw, v, h1, h2, rfl⟩⟩
      · split at h
        · exact Except.noConfusion h
        next xw hxw =>
          cases h
          exact ⟨cw, cv, hcw, hcv, Or.inr ⟨by assumption, xw, hxw, rfl⟩⟩

theorem call_ok {vm : VirtualMachine} {c : Ctl} (h : call vm = .ok c) :
    ∃ aw v,
      memRead vm.memory (vm.memoryIndex + 1) = some aw ∧
      toValue vm.registers aw = .ok v ∧
      c = .jumped { vm with stack := vm.stack ++ [(vm.memoryIndex + 2) % 65536],
                            memoryIndex := vm.memoryIndex + 1 } v := by
  unfold call at h
  obtain ⟨aw, v, h1, h2, rfl⟩ := jump_ok h
  exact ⟨aw, v, h1, h2, rfl⟩

theorem execute_unknown (vm : VirtualMachine) (op : Nat) (h : 22 ≤ op) :
    execute vm op = .error .unknownOpcode := by
  unfold execute
  split <;> first | rfl | omega

/-- Inverting a `.cont` result of `step`: the dispatched handler produced
either a `fall` or a `jumped` control result, the trailing `vm.next()` read
was in bounds, and `vm'` is the advanced state. -/
theorem step_cont_execute {vm vm' : VirtualMachine} {w op : Nat}
    (hw : memRead vm.memory vm.memoryIndex = some w)
    (hop : toValue vm.registers w = .ok op)
    (hstep : step vm = .cont vm') :
    (∃ u, execute vm op = .ok (.fall u) ∧
       (∃ x, memRead u.memory (u.memoryIndex + 1) = some x) ∧
       vm' = { u with memoryIndex := u.memoryIndex + 1 }) ∨
    (∃ u t, execute vm op = .ok (.jumped u t) ∧
       (∃ x, memRead u.memory t = some x) ∧
       vm' = { u with memoryIndex := t }) := by
  unfold step at hstep
  split at hstep
  · exact Step.noConfusion hstep
  next w' hw' =>
    rw [hw] at hw'
    cases hw'
    split at hstep
    · exact Step.noConfusion hstep
    next op' hop' =>
      rw [hop] at hop'
      cases hop'
      split at hstep
      · exact Step.noConfusion hstep
      · exact Step.noConfusion hstep
      · exact Step.noConfusion hstep
      next u hu =>
        split at hstep
        · exact Step.noConfusion hstep
        next x hx =>
          cases hstep
          exact Or.inl ⟨u, hu, ⟨x, hx⟩, rfl⟩
      next u t hu =>
        split at hstep
        · exact Step.noConfusion hstep
        next x hx =>
          cases hstep
          exact Or.inr ⟨u, t, hu, ⟨x, hx⟩, rfl⟩

/-- If the dispatched handler halted, the step halts. -/
theorem step_halt_of {vm : VirtualMachine} {w op : Nat}
    (hw : memRead vm.memory vm.memoryIndex = some w)
    (hop : toValue vm.registers w = .ok op)
    (hex : execute vm op = .ok .halted) :
    step vm = .halt := by
  unfold step
  split
  next hw' => rw [hw] at hw'; exact Option.noConfusion hw'
  next w' hw' =>
    rw [hw] at hw'
    cases hw'
    split
    next hop' => rw [hop] at hop'; exact Except.noConfusion hop'
    next op' hop' =>
      rw [hop] at hop'
      cases hop'
      split
      next hu => rw [hex] at hu; exact Except.noConfusion hu
      · rfl
      next hu => rw [hex] at hu; simp at hu
      next u hu => rw [hex] at hu; simp at hu
      next u t hu => rw [hex] at hu; simp at hu

end Synacor

namespace Synacor

/-- A catalogue of per-opcode facts about a continuing step: how far the
program counter advanced, and which state components were left untouched. -/
theorem step_cont_props {vm vm' : VirtualMachine} {w op : Nat}
    (hw : memRead vm.memory vm.memoryIndex = some w)
    (hop : toValue vm.registers w = .ok op)
    (hstep : step vm = .cont vm') :
    (op ∈ ([0, 1, 2, 3, 4, 5, 9, 10, 11, 12, 13, 14, 15, 16, 19, 20, 21] : List Nat) →
       vm'.memoryIndex = vm.memoryIndex + 1 + operandCount op) ∧
    (op = 7 → ∀ cw, memRead vm.memory (vm.memoryIndex + 1) = some cw →
       toValue vm.registers cw = .ok 0 → vm'.memoryIndex = vm.memoryIndex + 3) ∧
    (op = 8 → ∀ cw cv, memRead vm.memory (vm.memoryIndex + 1) = some cw →
       toValue vm.registers cw = .ok cv → cv ≠ 0 → vm'.memoryIndex = vm.memoryIndex + 3) ∧
    (op ≠ 16 → vm'.memory = vm.memory) ∧
    (op ∉ ([2, 3, 17, 18] : List Nat) → vm'.stack = vm.stack) ∧
    (op ≠ 20 → vm'.input = vm.input) ∧
    (op ∈ ([1, 4, 5, 9, 10, 11, 12, 13, 14, 15] : List Nat) →
       ∀ dw, memRead vm.memory (vm.memoryIndex + 1) = some dw →
         ∀ j, j ≠ toRegisterIndex dw → vm'.registers j = vm.registers j) := by
  have hop22 : op < 22 := by
    by_contra hge
    rcases step_cont_execute hw hop hstep with ⟨u, hu, -, -⟩ | ⟨u, t, hu, -, -⟩ <;>
      rw [execute_unknown vm op (by omega)] at hu <;> exact Except.noConfusion hu
  rcases step_cont_execute hw hop hstep with ⟨u, hu, -, rfl⟩ | ⟨u, t, hu, -, rfl⟩
  · -- the handler fell through; the trailing next() advanced the counter by one
    interval_cases op
    · replace hu : (Except.ok Ctl.halted : Except Err Ctl) = .ok (.fall u) := hu
      simp at hu
    · replace hu : Synacor.set vm = .ok (.fall u) := hu
      obtain ⟨dw, vw, v, regs, hdw, hvw, hv, hrw, hc⟩ := set_ok hu
      injection hc with hc
      subst hc
      exact ⟨fun _ => rfl, fun h7 => absurd h7 (by decide), fun h8 => absurd h8 (by decide),
        fun _ => rfl, fun _ => rfl, fun _ => rfl,
        fun _ dw' hdw' j hj => by
          rw [hdw] at hdw'
          cases hdw'
          obtain ⟨-, -, hregs⟩ := regWrite_ok hrw
          subst hregs
          exact updateFn_other _ _ _ _ hj⟩
    · replace hu : Synacor.push vm = .ok (.fall u) := hu
      obtain ⟨vw, v, hvw, hv, hc⟩ := push_ok hu
      injection hc with hc
      subst hc
      exact ⟨fun _ => rfl, fun h7 => absurd h7 (by decide), fun h8 => absurd h8 (by decide),
        fun _ => rfl, fun hnot => absurd (by decide : (2 : Nat) ∈ [2, 3, 17, 18]) hnot,
        fun _ => rfl, fun hmem => absurd hmem (by decide)⟩
    · replace hu : Synacor.pop vm = .ok (.fall u) := hu
      obtain ⟨tt, dw, regs, hlast, hdw, hrw, hc⟩ := pop_ok hu
      injection hc with hc
      subst hc
      exact ⟨fun _ => rfl, fun h7 => absurd h7 (by decide), fun h8 => absurd h8 (by decide),
        fun _ => rfl, fun hnot => absurd (by decide : (3 : Nat) ∈ [2, 3, 17, 18]) hnot,
        fun _ => rfl, fun hmem => absurd hmem (by decide)⟩
    · replace hu : Synacor.eq vm = .ok (.fall u) := hu
      obtain ⟨dw, aw, a, bw, b, regs, hdw, haw, ha, hbw, hb, hrw, hc⟩ := eq_ok hu
      injection hc with hc
      subst hc
      exact ⟨fun _ => rfl, fun h7 => absurd h7 (by decide), fun h8 => absurd h8 (by decide),
        fun _ => rfl, fun _ => rfl, fun _ => rfl,
        fun _ dw' hdw' j hj => by
          rw [hdw] at hdw'
          cases hdw'
          obtain ⟨-, -, hregs⟩ := regWrite_ok hrw
          subst hregs
          exact updateFn_other _ _ _ _ hj⟩
    · replace hu : Synacor.gt vm = .ok (.fall u) := hu
      obtain ⟨dw, aw, a, bw, b, regs, hdw, haw, ha, hbw, hb, hrw, hc⟩ := gt_ok hu
      injection hc with hc
      subst hc
      exact ⟨fun _ => rfl, fun h7 => absurd h7 (by decide), fun h8 => absurd h8 (by decide),
        fun _ => rfl, fun _ => rfl, fun _ => rfl,
        fun _ dw' hdw' j hj => by
          rw [hdw] at hdw'
          cases hdw'
          obtain ⟨-, -, hregs⟩ := regWrite_ok hrw
          subst hregs
          exact updateFn_other _ _ _ _ hj⟩
    · replace hu : Synacor.jump vm = .ok (.fall u) := hu
      obtain ⟨aw, v, haw, hv, hc⟩ := jump_ok hu
      exact Ctl.noConfusion hc
    · replace hu : Synacor.jt vm = .ok (.fall u) := hu
      obtain ⟨cw, cv, hcw, hcv, hd⟩ := jt_ok hu
      rcases hd with ⟨hne, aw, v, haw, hv, hc⟩ | ⟨hz, xw, hxw, hc⟩
      · exact Ctl.noConfusion hc
      · injection hc with hc
        subst hc
        subst hz
        exact ⟨fun hmem => absurd hmem (by decide),
          fun _ cw' hcw' h0 => rfl,
          fun h8 => absurd h8 (by decide),
          fun _ => rfl, fun _ => rfl, fun _ => rfl, fun hmem => absurd hmem (by decide)⟩
    · replace hu : Synacor.jf vm = .ok (.fall u) := hu
      obtain ⟨cw, cv, hcw, hcv, hd⟩ := jf_ok hu
      rcases hd with ⟨hz, aw, v, haw, hv, hc⟩ | ⟨hne, xw, hxw, hc⟩
      · exact Ctl.noConfusion hc
      · injection hc with hc
        subst hc
        exact ⟨fun hmem => absurd hmem (by decide),
          fun h7 => absurd h7 (by decide),
          fun _ cw' cv' hcw' hcv' hne' => rfl,
          fun _ => rfl, fun _ => rfl, fun _ => rfl, fun hmem => absurd hmem (by decide)⟩
    · replace hu : Synacor.add vm = .ok (.fall u) := hu
      obtain ⟨dw, aw, a, bw, b, regs, hdw, haw, ha, hbw, hb, hrw, hc⟩ := add_ok hu
      injection hc with hc
      subst hc
      exact ⟨fun _ => rfl, fun h7 => absurd h7 (by decide), fun h8 => absurd h8 (by decide),
        fun _ => rfl, fun _ => rfl, fun _ => rfl,
        fun _ dw' hdw' j hj => by
          rw [hdw] at hdw'
          cases hdw'
          obtain ⟨-, -, hregs⟩ := regWrite_ok hrw
          subst hregs
          exact updateFn_other _ _ _ _ hj⟩
    · replace hu : Synacor.mul vm = .ok (.fall u) := hu
      obtain ⟨dw, aw, a, bw, b, regs, hdw, haw, ha, hbw, hb, hrw, hc⟩ := mul_ok hu
      injection hc with hc
      subst hc
      exact ⟨fun _ => rfl, fun h7 => absurd h7 (by decide), fun h8 => absurd h8 (by decide),
        fun _ => rfl, fun _ => rfl, fun _ => rfl,
        fun _ dw' hdw' j hj => by
          rw [hdw] at hdw'
          cases hdw'
          obtain ⟨-, -, hregs⟩ := regWrite_ok hrw
          subst hregs
          exact updateFn_other _ _ _ _ hj⟩
    · replace hu : Synacor.mod vm = .ok (.fall u) := hu
      obtain ⟨dw, aw, a, bw, b, regs, hdw, haw, ha, hbw, hb, hb0, hrw, hc⟩ := mod_ok hu
      injection hc with hc
      subst hc
      exact ⟨fun _ => rfl, fun h7 => absurd h7 (by decide), fun h8 => absurd h8 (by decide),
        fun _ => rfl, fun _ => rfl, fun _ => rfl,
        fun _ dw' hdw' j hj => by
          rw [hdw] at hdw'
          cases hdw'
          obtain ⟨-, -, hregs⟩ := regWrite_ok hrw
          subst hregs
          exact updateFn_other _ _ _ _ hj⟩
    · replace hu : Synacor.and vm = .ok (.fall u) := hu
      obtain ⟨dw, aw, a, bw, b, regs, hdw, haw, ha, hbw, hb, hrw, hc⟩ := and_ok hu
      injection hc with hc
      subst hc
      exact ⟨fun _ => rfl, fun h7 => absurd h7 (by decide), fun h8 => absurd h8 (by decide),
        fun _ => rfl, fun _ => rfl, fun _ => rfl,
        fun _ dw' hdw' j hj => by
          rw [hdw] at hdw'
          cases hdw'
          obtain ⟨-, -, hregs⟩ := regWrite_ok hrw
          subst hregs
          exact updateFn_other _ _ _ _ hj⟩
    · replace hu : Synacor.or vm = .ok (.fall u) := hu
      obtain ⟨dw, aw, a, bw, b, regs, hdw, haw, ha, hbw, hb, hrw, hc⟩ := or_ok hu
      injection hc with hc
      subst hc
      exact ⟨fun _ => rfl, fun h7 => absurd h7 (by decide), fun h8 => absurd h8 (by decide),
        fun _ => rfl, fun _ => rfl, fun _ => rfl,
        fun _ dw' hdw' j hj => by
          rw [hdw] at hdw'
          cases hdw'
          obtain ⟨-, -, hregs⟩ := regWrite_ok hrw
          subst hregs
          exact updateFn_other _ _ _ _ hj⟩
    · replace hu : Synacor.not vm = .ok (.fall u) := hu
      obtain ⟨dw, vw, v, regs, hdw, hvw, hv, hrw, hc⟩ := not_ok hu
      injection hc with hc
      subst hc
      exact ⟨fun _ => rfl, fun h7 => absurd h7 (by decide), fun h8 => absurd h8 (by decide),
        fun _ => rfl, fun _ => rfl, fun _ => rfl,
        fun _ dw' hdw' j hj => by
          rw [hdw] at hdw'
          cases hdw'
          obtain ⟨-, -, hregs⟩ := regWrite_ok hrw
          subst hregs
          exact updateFn_other _ _ _ _ hj⟩
    · replace hu : Synacor.read vm = .ok (.fall u) := hu
      obtain ⟨dw, aw, a, v, regs, hdw, haw, ha, hmem, hrw, hc⟩ := read_ok hu
      injection hc with hc
      subst hc
      exact ⟨fun _ => rfl, fun h7 => absurd h7 (by decide), fun h8 => absurd h8 (by decide),
        fun _ => rfl, fun _ => rfl, fun _ => rfl,
        fun _ dw' hdw' j hj => by
          rw [hdw] at hdw'
          cases hdw'
          obtain ⟨-, -, hregs⟩ := regWrite_ok hrw
          subst hregs
          exact updateFn_other _ _ _ _ hj⟩
    · replace hu : Synacor.write vm = .ok (.fall u) := hu
      obtain ⟨aw, a, vw, v, haw, ha, hvw, hv, hlt, hc⟩ := write_ok hu
      injection hc with hc
      subst hc
      exact ⟨fun _ => rfl, fun h7 => absurd h7 (by decide), fun h8 => absurd h8 (by decide),
        fun h16 => absurd rfl h16, fun _ => rfl, fun _ => rfl,
        fun hmem => absurd hmem (by decide)⟩
    · replace hu : Synacor.call vm = .ok (.fall u) := hu
      obtain ⟨aw, v, haw, hv, hc⟩ := call_ok hu
      exact Ctl.noConfusion hc
    · replace hu : Synacor.ret vm = .ok (.fall u) := hu
      rcases ret_ok hu with ⟨_, hc⟩ | ⟨tt, -, hc⟩ <;> exact Ctl.noConfusion hc
    · replace hu : Synacor.print vm = .ok (.fall u) := hu
      obtain ⟨vw, v, hvw, hv, hc⟩ := print_ok hu
      injection hc with hc
      subst hc
      exact ⟨fun _ => rfl, fun h7 => absurd h7 (by decide), fun h8 => absurd h8 (by decide),
        fun _ => rfl, fun _ => rfl, fun _ => rfl, fun hmem => absurd hmem (by decide)⟩
    · replace hu : Synacor.ask vm = .ok (.fall u) := hu
      rcases ask_ok hu with ⟨_, hc⟩ | ⟨ch, rest, dw, regs, hin, hdw, hrw, hc⟩
      · exact Ctl.noConfusion hc
      · injection hc with hc
        subst hc
        exact ⟨fun _ => rfl, fun h7 => absurd h7 (by decide), fun h8 => absurd h8 (by decide),
          fun _ => rfl, fun _ => rfl, fun h20 => absurd rfl h20,
          fun hmem => absurd hmem (by decide)⟩
    · replace hu : (Except.ok (Ctl.fall vm) : Except Err Ctl) = .ok (.fall u) := hu
      injection hu with hu
      injection hu with hu
      subst hu
      exact ⟨fun _ => rfl, fun h7 => absurd h7 (by decide), fun h8 => absurd h8 (by decide),
        fun _ => rfl, fun _ => rfl, fun _ => rfl, fun hmem => absurd hmem (by decide)⟩
  · -- the handler jumped; the trailing next() lands on the target
    interval_cases op
    · replace hu : (Except.ok Ctl.halted : Except Err Ctl) = .ok (.jumped u t) := hu
      simp at hu
    · replace hu : Synacor.set vm = .ok (.jumped u t) := hu
      obtain ⟨_, _, _, _, _, _, _, _, hc⟩ := set_ok hu
      exact Ctl.noConfusion hc
    · replace hu : Synacor.push vm = .ok (.jumped u t) := hu
      obtain ⟨_, _, _, _, hc⟩ := push_ok hu
      exact Ctl.noConfusion hc
    · replace hu : Synacor.pop vm = .ok (.jumped u t) := hu
      obtain ⟨_, _, _, _, _, _, hc⟩ := pop_ok hu
      exact Ctl.noConfusion hc
    · replace hu : Synacor.eq vm = .ok (.jumped u t) := hu
      obtain ⟨_, _, _, _, _, _, _, _, _, _, _, _, hc⟩ := eq_ok hu
      exact Ctl.noConfusion hc
    · replace hu : Synacor.gt vm = .ok (.jumped u t) := hu
      obtain ⟨_, _, _, _, _, _, _, _, _, _, _, _, hc⟩ := gt_ok hu
      exact Ctl.noConfusion hc
    · replace hu : Synacor.jump vm = .ok (.jumped u t) := hu
      obtain ⟨aw, v, haw, hv, hc⟩ := jump_ok hu
      injection hc with hc1 hc2
      subst hc1
      subst hc2
      exact ⟨fun hmem => absurd hmem (by decide), fun h7 => absurd h7 (by decide),
        fun h8 => absurd h8 (by decide), fun _ => rfl, fun _ => rfl, fun _ => rfl,
        fun hmem => absurd hmem (by decide)⟩
    · replace hu : Synacor.jt vm = .ok (.jumped u t) := hu
      obtain ⟨cw, cv, hcw, hcv, hd⟩ := jt_ok hu
      rcases hd with ⟨hne, aw, v, haw, hv, hc⟩ | ⟨hz, xw, hxw, hc⟩
      · injection hc with hc1 hc2
        subst hc1
        subst hc2
        refine ⟨fun hmem => absurd hmem (by decide), ?_,
          fun h8 => absurd h8 (by decide), fun _ => rfl, fun _ => rfl, fun _ => rfl,
          fun hmem => absurd hmem (by decide)⟩
        intro _ cw' hcw' h0
        rw [hcw] at hcw'
        cases hcw'
        rw [hcv] at h0
        exact absurd (Except.ok.inj h0) hne
      · exact Ctl.noConfusion hc
    · replace hu : Synacor.jf vm = .ok (.jumped u t) := hu
      obtain ⟨cw, cv, hcw, hcv, hd⟩ := jf_ok hu
      rcases hd with ⟨hz, aw, v, haw, hv, hc⟩ | ⟨hne, xw, hxw, hc⟩
      · injection hc with hc1 hc2
        subst hc1
        subst hc2
        refine ⟨fun hmem => absurd hmem (by decide), fun h7 => absurd h7 (by decide), ?_,
          fun _ => rfl, fun _ => rfl, fun _ => rfl,
          fun hmem => absurd hmem (by decide)⟩
        intro _ cw' cv' hcw' hcv' hne'
        rw [hcw] at hcw'
        cases hcw'
        rw [hcv] at hcv'
        cases Except.ok.inj hcv'
        exact absurd hz hne'
      · exact Ctl.noConfusion hc
    · replace hu : Synacor.add vm = .ok (.jumped u t) := hu
      obtain ⟨_, _, _, _, _, _, _, _, _, _, _, _, hc⟩ := add_ok hu
      exact Ctl.noConfusion hc
    · replace hu : Synacor.mul vm = .ok (.jumped u t) := hu
      obtain ⟨_, _, _, _, _, _, _, _, _, _, _, _, hc⟩ := mul_ok hu
      exact Ctl.noConfusion hc
    · replace hu : Synacor.mod vm = .ok (.jumped u t) := hu
      obtain ⟨_, _, _, _, _, _, _, _, _, _, _, _, _, hc⟩ := mod_ok hu
      exact Ctl.noConfusion hc
    · replace hu : Synacor.and vm = .ok (.jumped u t) := hu
      obtain ⟨_, _, _, _, _, _, _, _, _, _, _, _, hc⟩ := and_ok hu
      exact Ctl.noConfusion hc
    · replace hu : Synacor.or vm = .ok (.jumped u t) := hu
      obtain ⟨_, _, _, _, _, _, _, _, _, _, _, _, hc⟩ := or_ok hu
      exact Ctl.noConfusion hc
    · replace hu : Synacor.not vm = .ok (.jumped u t) := hu
      obtain ⟨_, _, _, _, _, _, _, _, hc⟩ := not_ok hu
      exact Ctl.noConfusion hc
    · replace hu : Synacor.read vm = .ok (.jumped u t) := hu
      obtain ⟨_, _, _, _, _, _, _, _, _, _, hc⟩ := read_ok hu
      exact Ctl.noConfusion hc
    · replace hu : Synacor.write vm = .ok (.jumped u t) := hu
      obtain ⟨_, _, _, _, _, _, _, _, _, hc⟩ := write_ok hu
      exact Ctl.noConfusion hc
    · replace hu : Synacor.call vm = .ok (.jumped u t) := hu
      obtain ⟨aw, v, haw, hv, hc⟩ := call_ok hu
      injection hc with hc1 hc2
      subst hc1
      subst hc2
      exact ⟨fun hmem => absurd hmem (by decide), fun h7 => absurd h7 (by decide),
        fun h8 => absurd h8 (by decide), fun _ => rfl,
        fun hnot => absurd (by decide : (17 : Nat) ∈ [2, 3, 17, 18]) hnot, fun _ => rfl,
        fun hmem => absurd hmem (by decide)⟩
    · replace hu : Synacor.ret vm = .ok (.jumped u t) := hu
      rcases ret_ok hu with ⟨_, hc⟩ | ⟨tt, hlast, hc⟩
      · exact Ctl.noConfusion hc
      · injection hc with hc1 hc2
        subst hc1
        subst hc2
        exact ⟨fun hmem => absurd hmem (by decide), fun h7 => absurd h7 (by decide),
          fun h8 => absurd h8 (by decide), fun _ => rfl,
          fun hnot => absurd (by decide : (18 : Nat) ∈ [2, 3, 17, 18]) hnot, fun _ => rfl,
          fun hmem => absurd hmem (by decide)⟩
    · replace hu : Synacor.print vm = .ok (.jumped u t) := hu
      obtain ⟨_, _, _, _, hc⟩ := print_ok hu
      exact Ctl.noConfusion hc
    · replace hu : Synacor.ask vm = .ok (.jumped u t) := hu
      rcases ask_ok hu with ⟨_, hc⟩ | ⟨_, _, _, _, _, _, _, hc⟩ <;> exact Ctl.noConfusion hc
    · replace hu : (Except.ok (Ctl.fall vm) : Except Err Ctl) = .ok (.jumped u t) := hu
      injection hu with hu
      exact Ctl.noConfusion hu

end Synacor

namespace Synacor

/-! ## The program loader -/

/-- Two-at-a-time structural induction on lists, matching the loader's
byte-pair recursion. -/
theorem two_step_induction {P : List Nat → Prop} (h0 : P []) (h1 : ∀ x, P [x])
    (h2 : ∀ x y l, P l → P (x :: y :: l)) : ∀ l, P l
  | [] => h0
  | [x] => h1 x
  | x :: y :: l => h2 x y l (two_step_induction h0 h1 h2 l)

/-- The loader succeeds exactly on even-length byte sequences (on odd length
the final slice `b[i:i+2]` is out of range). -/
theorem readProgram_isSome (b : List Nat) :
    (readProgram b).isSome ↔ b.length % 2 = 0 := by
  induction b using two_step_induction with
  | h0 => simp [readProgram]
  | h1 x => simp [readProgram]
  | h2 x y l ih =>
    rw [show (x :: y :: l).length = l.length + 2 by simp only [List.length_cons],
      Nat.add_mod_right]
    simpa [readProgram] using ih

/-- The decoded word sequence: word `i` is the little-endian combination of
bytes `2*i` and `2*i+1`. -/
theorem readProgram_getD {b ws : List Nat} (h : readProgram b = some ws) :
    ∀ i, ws.getD i 0 = b.getD (2 * i) 0 + 256 * b.getD (2 * i + 1) 0 := by
  induction b using two_step_induction generalizing ws with
  | h0 =>
    replace h : (some [] : Option (List Nat)) = some ws := h
    cases h
    intro i
    simp [List.getD]
  | h1 x =>
    exact Option.noConfusion h
  | h2 x y l ih =>
    replace h : (readProgram l).map (fun ws => (x + 256 * y) :: ws) = some ws := h
    rw [Option.map_eq_some'] at h
    obtain ⟨ws', hws', rfl⟩ := h
    intro i
    cases i with
    | zero => simp
    | succ i => exact ih hws' i

theorem readProgram_length {b ws : List Nat} (h : readProgram b = some ws) :
    ws.length = b.length / 2 := by
  induction b using two_step_induction generalizing ws with
  | h0 =>
    replace h : (some [] : Option (List Nat)) = some ws := h
    cases h
    rfl
  | h1 x =>
    exact Option.noConfusion h
  | h2 x y l ih =>
    replace h : (readProgram l).map (fun ws => (x + 256 * y) :: ws) = some ws := h
    rw [Option.map_eq_some'] at h
    obtain ⟨ws', hws', rfl⟩ := h
    have := ih hws'
    simp only [List.length_cons, this, List.length_cons]
    omega

/-- Loading never fails for even length, whatever the size of the program. -/
theorem loadProgram_isSome_of_even {b : List Nat} (h : b.length % 2 = 0) :
    (loadProgram b).isSome := by
  obtain ⟨ws, hws⟩ := Option.isSome_iff_exists.mp ((readProgram_isSome b).mpr h)
  simp [loadProgram, hws]

end Synacor

namespace Synacor

/-- C1: the spec declares 32768 addressable words (0..32767), but the source
declares `memory [32767]Number`, so the last spec-addressable word does not
exist: reads succeed up to address 32766 and fault at 32767, and an
instruction fetch, an rmem (`read`) and a wmem (`write`) at address 32767 all
fault with the out-of-range panic instead of succeeding. -/
theorem memory_size_off_by_one :
    memRead (NewVirtualMachine []).memory 32766 = some 0 ∧
    memRead (NewVirtualMachine []).memory 32767 = none ∧
    step { NewVirtualMachine [] with memoryIndex := 32767 } = .fault .outOfBounds ∧
    step (NewVirtualMachine [15, 32768, 32767]) = .fault .outOfBounds ∧
    step (NewVirtualMachine [16, 32767, 0]) = .fault .outOfBounds :=
  ⟨rfl, rfl, rfl, rfl, rfl⟩

/-- C2 (amended): loading faults exactly on odd-length input; every
even-length byte sequence loads successfully, each consecutive byte pair
decoded as a little-endian 16-bit word; the first `memSize = 32767` decoded
words are copied into memory from address 0 and any further words are
silently dropped — there is no error for oversized programs. -/
theorem loadProgram_characterization (b : List Nat) :
    ((loadProgram b).isSome ↔ b.length % 2 = 0) ∧
    (∀ vm, loadProgram b = some vm →
      vm.memoryIndex = 0 ∧ vm.stack = [] ∧ (∀ i, vm.registers i = 0) ∧
      (∀ a, vm.memory a =
        if a < memSize then b.getD (2 * a) 0 + 256 * b.getD (2 * a + 1) 0 else 0)) := by
  constructor
  · constructor
    · intro hs
      rcases hws : readProgram b with _ | ws
      · rw [loadProgram, hws] at hs
        exact absurd hs (by simp)
      · exact (readProgram_isSome b).mp (by rw [hws]; rfl)
    · exact loadProgram_isSome_of_even
  · intro vm hvm
    rw [loadProgram, Option.map_eq_some'] at hvm
    obtain ⟨ws, hws, rfl⟩ := hvm
    refine ⟨rfl, rfl, fun i => rfl, fun a => ?_⟩
    show (if a < memSize then ws.getD a 0 else 0) = _
    rw [readProgram_getD hws a]

theorem loadProgram_characterization_witness :
    ((loadProgram [6, 0, 3, 0]).isSome ↔ ([6, 0, 3, 0] : List Nat).length % 2 = 0) ∧
    (∃ vm, loadProgram [6, 0, 3, 0] = some vm ∧ vm.memory 0 = 6 ∧ vm.memory 1 = 3 ∧
      vm.memory 2 = 0) := by
  refine ⟨(loadProgram_characterization [6, 0, 3, 0]).1, ?_⟩
  obtain ⟨vm, hvm⟩ : ∃ vm, loadProgram ([6, 0, 3, 0] : List Nat) = some vm := ⟨_, rfl⟩
  have h := ((loadProgram_characterization [6, 0, 3, 0]).2 vm hvm).2.2.2
  refine ⟨vm, hvm, ?_, ?_, ?_⟩
  · rw [h 0]; decide
  · rw [h 1]; decide
  · rw [h 2]; decide

/-- C2 counterexample: the claim says a program of more than 32768 words is a
load-time MalformedProgram error, but loading 65538 bytes (32769 words)
succeeds — `copy` silently truncates and no error path exists for size. -/
theorem loadProgram_oversized_no_error :
    (List.replicate 65538 0).length % 2 = 0 ∧
    (loadProgram (List.replicate 65538 0)).isSome = true := by
  have hl : (List.replicate 65538 (0 : Nat)).length % 2 = 0 := by
    rw [List.length_replicate]
  exact ⟨hl, loadProgram_isSome_of_even hl⟩

/-- C3: resolving a raw word `w` as a value yields `w` itself for
`w ≤ 32767`, the content of register `w - 32768` for `32768 ≤ w ≤ 32775`,
and the fatal InvalidOperand decode error (`log.Fatalf "Invalid value"`) for
`w ≥ 32776`, producing no value. -/
theorem toValue_spec (registers : Nat → Nat) (w : Nat) :
    (w ≤ 32767 → toValue registers w = .ok w) ∧
    (32768 ≤ w → w ≤ 32775 → toValue registers w = .ok (registers (w - 32768))) ∧
    (32776 ≤ w → toValue registers w = .error .invalidValue) := by
  unfold toValue toRegisterIndex modulo
  refine ⟨fun h => ?_, fun h1 h2 => ?_, fun h => ?_⟩ <;> split_ifs <;> first | rfl | omega

theorem toValue_spec_witness :
    toValue (fun _ => 7) 5 = .ok 5 ∧
    toValue (fun _ => 7) 32770 = .ok 7 ∧
    toValue (fun _ => 7) 32776 = .error .invalidValue := by
  refine ⟨(toValue_spec _ 5).1 (by omega), ?_, (toValue_spec _ 32776).2.2 (by omega)⟩
  have h := (toValue_spec (fun _ => 7) 32770).2.1 (by omega) (by omega)
  simpa using h

/-- C4: writing through a destination word `w` faults (the runtime
index-out-of-range panic on `vm.registers`, the spec's InvalidOperand) unless
`w` is a register reference in `[32768, 32775]`; when it is, exactly register
`w - 32768` is written — illustrated at machine level by a `set` with literal
destination faulting and a `set` with register destination writing the
register and leaving every memory cell unchanged. -/
theorem regWrite_spec (registers : Nat → Nat) (w v : Nat) :
    (¬ (32768 ≤ w ∧ w ≤ 32775) → regWrite registers w v = .error .invalidRegister) ∧
    (32768 ≤ w → w ≤ 32775 →
      regWrite registers w v = .ok (updateFn registers (w - 32768) v) ∧
      updateFn registers (w - 32768) v (w - 32768) = v ∧
      (∀ j, j ≠ w - 32768 → updateFn registers (w - 32768) v j = registers j)) ∧
    step (NewVirtualMachine [1, 5, 0]) = .fault .invalidRegister ∧
    (∃ vm', step (NewVirtualMachine [1, 32770, 7]) = .cont vm' ∧
      vm'.registers 2 = 7 ∧ ∀ a, vm'.memory a = (NewVirtualMachine [1, 32770, 7]).memory a) := by
  refine ⟨fun h => regWrite_out_of_range v (by unfold modulo; omega),
    fun h1 h2 => ⟨regWrite_of_range v (by unfold modulo; omega) (by unfold modulo; omega),
      updateFn_same _ _ _, fun j hj => updateFn_other _ _ _ _ hj⟩,
    rfl, ⟨_, rfl, rfl, fun a => rfl⟩⟩

theorem regWrite_spec_witness :
    regWrite (fun _ => 0) 5 9 = .error .invalidRegister ∧
    regWrite (fun _ => 0) 32770 9 = .ok (updateFn (fun _ => 0) 2 9) := by
  have h := regWrite_spec (fun _ => 0) 5 9
  have h2 := regWrite_spec (fun _ => 0) 32770 9
  exact ⟨h.1 (by omega), (h2.2.1 (by omega) (by omega)).1⟩

end Synacor

namespace Synacor

/-- C5: an instruction that does not explicitly set the program counter
(every opcode except `jmp`, a taken `jt`/`jf`, `call` and `ret`) leaves the
counter at the instruction's address plus 1 plus its operand count; in
particular `jt` with a zero condition and `jf` with a nonzero condition still
consume the address operand and advance past both operands. -/
theorem step_pc_advance (vm vm' : VirtualMachine) (w op : Nat)
    (hw : memRead vm.memory vm.memoryIndex = some w)
    (hop : toValue vm.registers w = .ok op)
    (hstep : step vm = .cont vm') :
    (op ∈ ([0, 1, 2, 3, 4, 5, 9, 10, 11, 12, 13, 14, 15, 16, 19, 20, 21] : List Nat) →
       vm'.memoryIndex = vm.memoryIndex + 1 + operandCount op) ∧
    (op = 7 → (∃ cw, memRead vm.memory (vm.memoryIndex + 1) = some cw ∧
        toValue vm.registers cw = .ok 0) →
       vm'.memoryIndex = vm.memoryIndex + 3) ∧
    (op = 8 → (∃ cw cv, memRead vm.memory (vm.memoryIndex + 1) = some cw ∧
        toValue vm.registers cw = .ok cv ∧ cv ≠ 0) →
       vm'.memoryIndex = vm.memoryIndex + 3) := by
  obtain ⟨hA, hB, hC, -, -, -, -⟩ := step_cont_props hw hop hstep
  refine ⟨hA, fun h7 hex => ?_, fun h8 hex => ?_⟩
  · obtain ⟨cw, h1, h2⟩ := hex
    exact hB h7 cw h1 h2
  · obtain ⟨cw, cv, h1, h2, h3⟩ := hex
    exact hC h8 cw cv h1 h2 h3

theorem step_pc_advance_witness :
    ∃ vm', step (NewVirtualMachine [21, 0]) = .cont vm' ∧
      vm'.memoryIndex = (NewVirtualMachine [21, 0]).memoryIndex + 1 + operandCount 21 := by
  obtain ⟨vm', hstep⟩ : ∃ u, step (NewVirtualMachine [21, 0]) = .cont u := ⟨_, rfl⟩
  exact ⟨vm', hstep, (step_pc_advance (NewVirtualMachine [21, 0]) vm' 21 21 rfl rfl hstep).1 (by decide)⟩

/-- C6: for resolved operands `a, b ≤ 32767`, `add` stores `(a + b) % 32768`
and `mult` stores `(a * b) % 32768` in the destination register, the
intermediate `uint16` wrap at 65536 notwithstanding. -/
theorem add_mult_mod (vm vm' : VirtualMachine) (w dw aw a bw b : Nat)
    (hw : memRead vm.memory vm.memoryIndex = some w)
    (hdw : memRead vm.memory (vm.memoryIndex + 1) = some dw)
    (haw : memRead vm.memory (vm.memoryIndex + 2) = some aw)
    (ha : toValue vm.registers aw = .ok a)
    (hbw : memRead vm.memory (vm.memoryIndex + 3) = some bw)
    (hb : toValue vm.registers bw = .ok b)
    (ha' : a ≤ 32767) (hb' : b ≤ 32767)
    (hstep : step vm = .cont vm') :
    (toValue vm.registers w = .ok 9 → vm'.registers (dw - 32768) = (a + b) % 32768) ∧
    (toValue vm.registers w = .ok 10 → vm'.registers (dw - 32768) = (a * b) % 32768) := by
  constructor
  · intro hop
    rcases step_cont_execute hw hop hstep with ⟨u, hu, -, rfl⟩ | ⟨u, t, hu, -, rfl⟩
    · replace hu : Synacor.add vm = .ok (.fall u) := hu
      obtain ⟨dw1, aw1, a1, bw1, b1, regs, hdw1, haw1, ha1, hbw1, hb1, hrw, hc⟩ := add_ok hu
      rw [hdw] at hdw1
      injection hdw1 with hdw1
      subst hdw1
      rw [haw] at haw1
      injection haw1 with haw1
      subst haw1
      rw [ha] at ha1
      injection ha1 with ha1
      subst ha1
      rw [hbw] at hbw1
      injection hbw1 with hbw1
      subst hbw1
      rw [hb] at hb1
      injection hb1 with hb1
      subst hb1
      injection hc with hc
      subst hc
      obtain ⟨-, -, hregs⟩ := regWrite_ok hrw
      subst hregs
      dsimp only
      rw [show dw - 32768 = toRegisterIndex dw from rfl, updateFn_same]
      unfold modulo
      omega
    · replace hu : Synacor.add vm = .ok (.jumped u t) := hu
      obtain ⟨_, _, _, _, _, _, _, _, _, _, _, _, hc⟩ := add_ok hu
      exact Ctl.noConfusion hc
  · intro hop
    rcases step_cont_execute hw hop hstep with ⟨u, hu, -, rfl⟩ | ⟨u, t, hu, -, rfl⟩
    · replace hu : Synacor.mul vm = .ok (.fall u) := hu
      obtain ⟨dw1, aw1, a1, bw1, b1, regs, hdw1, haw1, ha1, hbw1, hb1, hrw, hc⟩ := mul_ok hu
      rw [hdw] at hdw1
      injection hdw1 with hdw1
      subst hdw1
      rw [haw] at haw1
      injection haw1 with haw1
      subst haw1
      rw [ha] at ha1
      injection ha1 with ha1
      subst ha1
      rw [hbw] at hbw1
      injection hbw1 with hbw1
      subst hbw1
      rw [hb] at hb1
      injection hb1 with hb1
      subst hb1
      injection hc with hc
      subst hc
      obtain ⟨-, -, hregs⟩ := regWrite_ok hrw
      subst hregs
      dsimp only
      rw [show dw - 32768 = toRegisterIndex dw from rfl, updateFn_same]
      unfold modulo
      exact Nat.mod_mod_of_dvd _ (by norm_num)
    · replace hu : Synacor.mul vm = .ok (.jumped u t) := hu
      obtain ⟨_, _, _, _, _, _, _, _, _, _, _, _, hc⟩ := mul_ok hu
      exact Ctl.noConfusion hc

theorem add_mult_mod_witness :
    ∃ vm', step (NewVirtualMachine [9, 32768, 32766, 32765]) = .cont vm' ∧
      vm'.registers 0 = (32766 + 32765) % 32768 := by
  obtain ⟨vm', hstep⟩ : ∃ u, step (NewVirtualMachine [9, 32768, 32766, 32765]) = .cont u :=
    ⟨_, rfl⟩
  have h := (add_mult_mod (NewVirtualMachine [9, 32768, 32766, 32765]) vm'
    9 32768 32766 32766 32765 32765 rfl rfl rfl rfl rfl rfl
    (by omega) (by omega) hstep).1 rfl
  exact ⟨vm', hstep, h⟩

/-- C7: `not` stores the 15-bit complement `32767 - a` of a resolved operand
`a ≤ 32767` in the destination register (the `uint16` complement `65535 - a`
reduced modulo 32768), a value itself in `[0, 32767]`. -/
theorem not_fifteen_bit (vm vm' : VirtualMachine) (w dw aw a : Nat)
    (hw : memRead vm.memory vm.memoryIndex = some w)
    (hop : toValue vm.registers w = .ok 14)
    (hdw : memRead vm.memory (vm.memoryIndex + 1) = some dw)
    (haw : memRead vm.memory (vm.memoryIndex + 2) = some aw)
    (ha : toValue vm.registers aw = .ok a)
    (ha' : a ≤ 32767)
    (hstep : step vm = .cont vm') :
    vm'.registers (dw - 32768) = 32767 - a ∧ vm'.registers (dw - 32768) ≤ 32767 := by
  rcases step_cont_execute hw hop hstep with ⟨u, hu, -, rfl⟩ | ⟨u, t, hu, -, rfl⟩
  · replace hu : Synacor.not vm = .ok (.fall u) := hu
    obtain ⟨dw1, vw1, v1, regs, hdw1, hvw1, hv1, hrw, hc⟩ := not_ok hu
    rw [hdw] at hdw1
    injection hdw1 with hdw1
    subst hdw1
    rw [haw] at hvw1
    injection hvw1 with hvw1
    subst hvw1
    rw [ha] at hv1
    injection hv1 with hv1
    subst hv1
    injection hc with hc
    subst hc
    obtain ⟨-, -, hregs⟩ := regWrite_ok hrw
    subst hregs
    constructor
    · dsimp only
      rw [show dw - 32768 = toRegisterIndex dw from rfl, updateFn_same]
      unfold modulo
      omega
    · dsimp only
      rw [show dw - 32768 = toRegisterIndex dw from rfl, updateFn_same]
      unfold modulo
      omega
  · replace hu : Synacor.not vm = .ok (.jumped u t) := hu
    obtain ⟨_, _, _, _, _, _, _, _, hc⟩ := not_ok hu
    exact Ctl.noConfusion hc

theorem not_fifteen_bit_witness :
    ∃ vm', step (NewVirtualMachine [14, 32768, 5, 0]) = .cont vm' ∧
      vm'.registers 0 = 32767 - 5 ∧ vm'.registers 0 ≤ 32767 := by
  obtain ⟨vm', hstep⟩ : ∃ u, step (NewVirtualMachine [14, 32768, 5, 0]) = .cont u := ⟨_, rfl⟩
  have h := not_fifteen_bit (NewVirtualMachine [14, 32768, 5, 0]) vm' 14 32768 5 5 rfl rfl rfl rfl rfl (by omega) hstep
  exact ⟨vm', hstep, h.1, h.2⟩

/-- C8: `call` at address `p` pushes the return address `p + 2` (where the
counter would have advanced without the call) and continues at the resolved
operand; a `ret` that pops a value `t` continues exactly at `t` with the rest
of the stack, so popping a pushed `p + 2` resumes right after the call and
its operand. -/
theorem call_ret_correct :
    (∀ vm vm' w aw v, memRead vm.memory vm.memoryIndex = some w →
       toValue vm.registers w = .ok 17 →
       memRead vm.memory (vm.memoryIndex + 1) = some aw →
       toValue vm.registers aw = .ok v →
       step vm = .cont vm' →
       vm'.stack = vm.stack ++ [vm.memoryIndex + 2] ∧ vm'.memoryIndex = v) ∧
    (∀ vm vm' w s t, memRead vm.memory vm.memoryIndex = some w →
       toValue vm.registers w = .ok 18 →
       vm.stack = s ++ [t] →
       step vm = .cont vm' →
       vm'.memoryIndex = t ∧ vm'.stack = s) := by
  constructor
  · intro vm vm' w aw v hw hop haw hv hstep
    rcases step_cont_execute hw hop hstep with ⟨u, hu, -, rfl⟩ | ⟨u, t, hu, -, rfl⟩
    · replace hu : Synacor.call vm = .ok (.fall u) := hu
      obtain ⟨_, _, _, _, hc⟩ := call_ok hu
      exact Ctl.noConfusion hc
    · replace hu : Synacor.call vm = .ok (.jumped u t) := hu
      obtain ⟨aw1, v1, haw1, hv1, hc⟩ := call_ok hu
      rw [haw] at haw1
      injection haw1 with haw1
      subst haw1
      rw [hv] at hv1
      injection hv1 with hv1
      subst hv1
      injection hc with hc1 hc2
      subst hc1
      subst hc2
      have hlt := memRead_lt hw
      have hmod : (vm.memoryIndex + 2) % 65536 = vm.memoryIndex + 2 :=
        Nat.mod_eq_of_lt (by unfold memSize at hlt; omega)
      constructor
      · show vm.stack ++ [(vm.memoryIndex + 2) % 65536] = vm.stack ++ [vm.memoryIndex + 2]
        rw [hmod]
      · rfl
  · intro vm vm' w s t hw hop hs hstep
    rcases step_cont_execute hw hop hstep with ⟨u, hu, -, rfl⟩ | ⟨u, t2, hu, -, rfl⟩
    · replace hu : Synacor.ret vm = .ok (.fall u) := hu
      rcases ret_ok hu with ⟨_, hc⟩ | ⟨_, _, hc⟩ <;> exact Ctl.noConfusion hc
    · replace hu : Synacor.ret vm = .ok (.jumped u t2) := hu
      rcases ret_ok hu with ⟨_, hc⟩ | ⟨t3, hlast, hc⟩
      · exact Ctl.noConfusion hc
      · injection hc with hc1 hc2
        subst hc1
        subst hc2
        rw [hs, List.getLast?_concat] at hlast
        injection hlast with hlast
        subst hlast
        constructor
        · rfl
        · show vm.stack.dropLast = s
          rw [hs, List.dropLast_concat]

theorem call_ret_correct_witness :
    (∃ vm', step (NewVirtualMachine [17, 3, 0, 18, 0]) = .cont vm' ∧
      vm'.stack = [2] ∧ vm'.memoryIndex = 3) ∧
    (∃ vm2, step { NewVirtualMachine [17, 3, 0, 18, 0] with stack := [2], memoryIndex := 3 } =
        .cont vm2 ∧ vm2.memoryIndex = 2 ∧ vm2.stack = []) := by
  constructor
  · obtain ⟨vm', hstep⟩ : ∃ u, step (NewVirtualMachine [17, 3, 0, 18, 0]) = .cont u := ⟨_, rfl⟩
    have h := call_ret_correct.1 (NewVirtualMachine [17, 3, 0, 18, 0]) vm' 17 3 3 rfl rfl rfl rfl hstep
    exact ⟨vm', hstep, h.1.trans rfl, h.2⟩
  · obtain ⟨vm2, hstep⟩ : ∃ u,
        step { NewVirtualMachine [17, 3, 0, 18, 0] with stack := [2], memoryIndex := 3 } =
          .cont u := ⟨_, rfl⟩
    have h := call_ret_correct.2 { NewVirtualMachine [17, 3, 0, 18, 0] with stack := [2], memoryIndex := 3 } vm2 18 [] 2 rfl rfl rfl hstep
    exact ⟨vm2, hstep, h.1, h.2⟩

/-- C9: `ret` on an empty stack terminates successfully — the very same
`Step.halt` outcome as the `halt` instruction, not an error — and `ret` on a
nonempty stack pops the top word, redirects the counter to it and keeps the
rest of the stack. -/
theorem ret_halt_spec :
    (∀ vm w, memRead vm.memory vm.memoryIndex = some w →
       toValue vm.registers w = .ok 18 → vm.stack = [] → step vm = .halt) ∧
    (∀ vm w, memRead vm.memory vm.memoryIndex = some w →
       toValue vm.registers w = .ok 0 → step vm = .halt) ∧
    (∀ vm s t, vm.stack = s ++ [t] →
       ret vm = .ok (.jumped { vm with stack := s } t)) := by
  refine ⟨fun vm w hw hop hs => ?_, fun vm w hw hop => step_halt_of hw hop rfl,
    fun vm s t hs => ?_⟩
  · apply step_halt_of hw hop
    show Synacor.ret vm = .ok .halted
    unfold Synacor.ret
    rw [hs]
    rfl
  · unfold Synacor.ret
    rw [hs, List.getLast?_concat, List.dropLast_concat]

theorem ret_halt_spec_witness :
    step (NewVirtualMachine [18]) = .halt ∧
    step (NewVirtualMachine [0]) = .halt ∧
    ret { NewVirtualMachine [18] with stack := [5] } =
      .ok (.jumped { NewVirtualMachine [18] with stack := [] } 5) := by
  refine ⟨ret_halt_spec.1 (NewVirtualMachine [18]) 18 rfl rfl rfl,
    ret_halt_spec.2.1 (NewVirtualMachine [0]) 0 rfl rfl, ?_⟩
  exact ret_halt_spec.2.2 { NewVirtualMachine [18] with stack := [5] } [] 5 rfl

/-- C10: a register-writing instruction (set, eq, gt, add, mult, mod, and,
or, not, rmem) leaves memory, the stack, the input buffer and every register
other than its destination unchanged; any instruction other than wmem leaves
memory unchanged; any instruction other than push, pop, call, ret leaves the
stack unchanged. -/
theorem frame_conditions :
    (∀ vm vm' w op dw, memRead vm.memory vm.memoryIndex = some w →
       toValue vm.registers w = .ok op →
       op ∈ ([1, 4, 5, 9, 10, 11, 12, 13, 14, 15] : List Nat) →
       memRead vm.memory (vm.memoryIndex + 1) = some dw →
       step vm = .cont vm' →
       vm'.memory = vm.memory ∧ vm'.stack = vm.stack ∧ vm'.input = vm.input ∧
         (∀ j, j ≠ dw - 32768 → vm'.registers j = vm.registers j)) ∧
    (∀ vm vm' w op, memRead vm.memory vm.memoryIndex = some w →
       toValue vm.registers w = .ok op → op ≠ 16 → step vm = .cont vm' →
       vm'.memory = vm.memory) ∧
    (∀ vm vm' w op, memRead vm.memory vm.memoryIndex = some w →
       toValue vm.registers w = .ok op → op ∉ ([2, 3, 17, 18] : List Nat) →
       step vm = .cont vm' → vm'.stack = vm.stack) := by
  refine ⟨fun vm vm' w op dw hw hop hmem hdw hstep => ?_,
    fun vm vm' w op hw hop h16 hstep => (step_cont_props hw hop hstep).2.2.2.1 h16,
    fun vm vm' w op hw hop hnin hstep => (step_cont_props hw hop hstep).2.2.2.2.1 hnin⟩
  obtain ⟨-, -, -, hD, hE, hF, hG⟩ := step_cont_props hw hop hstep
  have hop16 : op ≠ 16 := by
    intro h
    subst h
    exact absurd hmem (by decide)
  have hop20 : op ≠ 20 := by
    intro h
    subst h
    exact absurd hmem (by decide)
  have hopS : op ∉ ([2, 3, 17, 18] : List Nat) := by
    fin_cases hmem <;> decide
  exact ⟨hD hop16, hE hopS, hF hop20, fun j hj => hG hmem dw hdw j hj⟩

theorem frame_conditions_witness :
    ∃ vm', step (NewVirtualMachine [12, 32768, 6, 3]) = .cont vm' ∧
      vm'.memory = (NewVirtualMachine [12, 32768, 6, 3]).memory ∧
      vm'.stack = (NewVirtualMachine [12, 32768, 6, 3]).stack ∧
      vm'.registers 5 = (NewVirtualMachine [12, 32768, 6, 3]).registers 5 := by
  obtain ⟨vm', hstep⟩ : ∃ u, step (NewVirtualMachine [12, 32768, 6, 3]) = .cont u := ⟨_, rfl⟩
  obtain ⟨h1, h2, h3, h4⟩ := frame_conditions.1 (NewVirtualMachine [12, 32768, 6, 3]) vm' 12 12 32768 rfl rfl (by decide) rfl hstep
  exact ⟨vm', hstep, h1, h2, h4 5 (by decide)⟩

end Synacor
